import Mathlib

/-!
Verification development for the ndlife repository (src/src/life.rs,
src/src/error.rs): an infinite N-dimensional game of life.

Coordinates ([i64; N] in the source) are modelled as List Int (length N);
HashSet becomes Finset; the HashMap dead-neighbour tally is modelled by its
final denotation, a count function, since every loop update is a commutative
increment.  Rule-set arguments are passed as List Nat, capturing the
iteration order of the HashSet argument that the source scans; the stored
rule sets are the corresponding Finsets.
-/

/-! ### The neighbour-offset odometer (life.rs lines 307-325)

The Rust closure keeps a digit array with digits conceptually in the range
-1..=1 and a pointer.  One pull of the iterator advances the pointer past
digits equal to 1, then increments the first other digit and resets all
earlier digits (which were all 1) to -1; it returns None when all digits
are 1.  The function incr below is exactly that step: scanning from the
head, carrying over digits equal to 1 (resetting them to -1), incrementing
the first digit that is not 1. -/
def incr : List Int → Option (List Int)
  | [] => none
  | d :: t => if d = 1 then (incr t).map (fun s => -1 :: s) else some ((d + 1) :: t)

/-- Pull the iterator repeatedly, collecting the emitted digit vectors.
The source iterator runs until None with no fuel; fuel makes the model
total, and odoFrom_add_of_stateAfter below shows that with fuel 3 ^ N the
run has already reached its natural end, so the fuel is not a truncation. -/
def odoFrom : Nat → List Int → List (List Int)
  | 0, _ => []
  | f + 1, ds =>
    match incr ds with
    | none => []
    | some ds' => ds' :: odoFrom f ds'

/-- The digit-array state after a given number of pulls (none once the
iterator has finished). -/
def stateAfter : Nat → List Int → Option (List Int)
  | 0, ds => some ds
  | f + 1, ds =>
    match incr ds with
    | none => none
    | some ds' => stateAfter f ds'

/-- Initial digit array of the source (life.rs lines 308-310): all -1 with
position 0 set to -2, so that the first pull emits the all -1 vector.
Meaningful for N at least 1; for N = 0 the source indexing would panic, and
dimension 0 is rejected at construction. -/
def deltasInit (N : Nat) : List Int := -2 :: List.replicate (N - 1) (-1)

/-- The unfiltered emission sequence of a fresh deltas iterator. -/
def rawDeltas (N : Nat) : List (List Int) := odoFrom (3 ^ N) (deltasInit N)

/-- The deltas iterator of next_generation (life.rs lines 307-325): the raw
odometer output filtered to vectors with some non-zero component. -/
def deltas (N : Nat) : List (List Int) :=
  (rawDeltas N).filter (fun ds => ds.any (fun d => decide (d ≠ 0)))

/-- All vectors of a given length with components in {-1, 0, 1}, in the
order the odometer emits them (head digit varies fastest). -/
def fullSeq : Nat → List (List Int)
  | 0 => [[]]
  | n + 1 => (fullSeq n).flatMap (fun t => [-1 :: t, 0 :: t, 1 :: t])

lemma incr_nil : incr [] = none := rfl

lemma incr_cons_of_ne {d : Int} (t : List Int) (h : d ≠ 1) :
    incr (d :: t) = some ((d + 1) :: t) := by
  simp [incr, h]

lemma incr_cons_one (t : List Int) :
    incr (1 :: t) = (incr t).map (fun s => -1 :: s) := by
  simp [incr]

lemma incr_replicate_one (n : Nat) : incr (List.replicate n 1) = none := by
  induction n with
  | zero => rfl
  | succ m ih => simp [List.replicate_succ, incr_cons_one, ih]

lemma odoFrom_zero (ds : List Int) : odoFrom 0 ds = [] := rfl

lemma odoFrom_succ_none {ds : List Int} (f : Nat) (h : incr ds = none) :
    odoFrom (f + 1) ds = [] := by
  simp [odoFrom, h]

lemma odoFrom_succ_some {ds ds' : List Int} (f : Nat) (h : incr ds = some ds') :
    odoFrom (f + 1) ds = ds' :: odoFrom f ds' := by
  simp [odoFrom, h]

lemma odoFrom_replicate_one (f n : Nat) : odoFrom f (List.replicate n 1) = [] := by
  cases f with
  | zero => rfl
  | succ g => exact odoFrom_succ_none g (incr_replicate_one n)

lemma stateAfter_zero (ds : List Int) : stateAfter 0 ds = some ds := rfl

lemma stateAfter_succ_none {ds : List Int} (f : Nat) (h : incr ds = none) :
    stateAfter (f + 1) ds = none := by
  simp [stateAfter, h]

lemma stateAfter_succ_some {ds ds' : List Int} (f : Nat) (h : incr ds = some ds') :
    stateAfter (f + 1) ds = stateAfter f ds' := by
  simp [stateAfter, h]

lemma stateAfter_add (a b : Nat) (ds : List Int) :
    stateAfter (a + b) ds = (stateAfter a ds).bind (stateAfter b) := by
  induction a generalizing ds with
  | zero => simp [stateAfter_zero]
  | succ a ih =>
    have hrw : a + 1 + b = a + b + 1 := by omega
    rw [hrw]
    cases h : incr ds with
    | none =>
      rw [stateAfter_succ_none _ h, stateAfter_succ_none _ h]
      rfl
    | some ds' =>
      rw [stateAfter_succ_some _ h, stateAfter_succ_some _ h, ih]

/-- Running the odometer with extra fuel first runs the base fuel, then
continues from the state reached (if the iterator has not yet finished). -/
lemma odoFrom_add (f k : Nat) (ds : List Int) :
    odoFrom (f + k) ds =
      odoFrom f ds ++
        (match stateAfter f ds with
          | none => []
          | some s => odoFrom k s) := by
  induction f generalizing ds with
  | zero => simp [odoFrom_zero, stateAfter_zero]
  | succ f ih =>
    have hrw : f + 1 + k = f + k + 1 := by omega
    rw [hrw]
    cases h : incr ds with
    | none =>
      rw [odoFrom_succ_none _ h, odoFrom_succ_none _ h, stateAfter_succ_none _ h]
      rfl
    | some ds' =>
      rw [odoFrom_succ_some _ h, odoFrom_succ_some _ h, stateAfter_succ_some _ h, ih]
      rfl

/-- Odometer recursion: prefixing a -1 digit triples the run (the head digit
cycles through -1, 0, 1 between consecutive emissions of the tail). -/
lemma odoFrom_neg_one_cons (f : Nat) (t : List Int) :
    odoFrom (3 * f + 2) (-1 :: t) =
      [0 :: t, 1 :: t] ++
        (odoFrom f t).flatMap (fun s => [-1 :: s, 0 :: s, 1 :: s]) := by
  induction f generalizing t with
  | zero =>
    rw [show 3 * 0 + 2 = 0 + 1 + 1 from rfl]
    rw [odoFrom_succ_some _ (incr_cons_of_ne t (by decide))]
    rw [odoFrom_succ_some _ (incr_cons_of_ne t (by decide))]
    simp [odoFrom_zero]
  | succ g ih =>
    rw [show 3 * (g + 1) + 2 = 3 * g + 3 + 1 + 1 from by omega]
    rw [odoFrom_succ_some _ (incr_cons_of_ne t (by decide))]
    rw [odoFrom_succ_some _ (incr_cons_of_ne t (by decide))]
    norm_num
    cases h : incr t with
    | none =>
      rw [show 3 * g + 3 = 3 * g + 2 + 1 from by omega]
      rw [odoFrom_succ_none _ (by rw [incr_cons_one, h]; rfl)]
      cases g with
      | zero => simp [odoFrom_zero, odoFrom_succ_none _ h]
      | succ g' => simp [odoFrom_succ_none _ h]
    | some t' =>
      rw [show 3 * g + 3 = 3 * g + 2 + 1 from by omega]
      rw [odoFrom_succ_some _ (by rw [incr_cons_one, h]; rfl)]
      rw [ih t']
      rw [odoFrom_succ_some _ h]
      simp

/-- From the all -1 state, the odometer (with the emitted first element
prepended) enumerates exactly all vectors over {-1, 0, 1}. -/
lemma odoFrom_replicate_neg_one (n : Nat) :
    List.replicate n (-1) :: odoFrom (3 ^ n - 1) (List.replicate n (-1)) = fullSeq n := by
  induction n with
  | zero => rfl
  | succ m ih =>
    have h3 : (1 : Nat) ≤ 3 ^ m := Nat.one_le_pow _ _ (by omega)
    have hrw : 3 ^ (m + 1) - 1 = 3 * (3 ^ m - 1) + 2 := by
      rw [pow_succ]
      omega
    rw [List.replicate_succ, hrw, odoFrom_neg_one_cons]
    show _ = fullSeq (m + 1)
    rw [show fullSeq (m + 1) = (fullSeq m).flatMap (fun t => [-1 :: t, 0 :: t, 1 :: t]) from rfl]
    rw [← ih]
    simp

/-- After 3 ^ n - 1 pulls from the all -1 state the digit array is all 1,
the final state of the enumeration. -/
lemma stateAfter_cons_neg_one (f : Nat) (t s : List Int)
    (h : stateAfter f t = some s) :
    stateAfter (3 * f + 2) (-1 :: t) = some (1 :: s) := by
  induction f generalizing t with
  | zero =>
    rw [stateAfter_zero] at h
    have hts : t = s := Option.some_injective _ h
    subst hts
    have e1 : incr (-1 :: t) = some (0 :: t) := by
      rw [incr_cons_of_ne t (by decide)]
      norm_num
    have e2 : incr (0 :: t) = some (1 :: t) := by
      rw [incr_cons_of_ne t (by decide)]
      norm_num
    rw [show 3 * 0 + 2 = 0 + 1 + 1 from rfl]
    rw [stateAfter_succ_some _ e1, stateAfter_succ_some _ e2, stateAfter_zero]
  | succ g ih =>
    cases hi : incr t with
    | none => rw [stateAfter_succ_none _ hi] at h; cases h
    | some t' =>
      rw [stateAfter_succ_some _ hi] at h
      rw [show 3 * (g + 1) + 2 = 3 + (3 * g + 2) from by omega, stateAfter_add]
      have e1 : incr (-1 :: t) = some (0 :: t) := by
        rw [incr_cons_of_ne t (by decide)]
        norm_num
      have e2 : incr (0 :: t) = some (1 :: t) := by
        rw [incr_cons_of_ne t (by decide)]
        norm_num
      have e3 : incr (1 :: t) = some (-1 :: t') := by
        rw [incr_cons_one, hi]
        rfl
      have h3 : stateAfter 3 (-1 :: t) = some (-1 :: t') := by
        rw [show (3 : Nat) = 0 + 1 + 1 + 1 from rfl]
        rw [stateAfter_succ_some _ e1, stateAfter_succ_some _ e2,
          stateAfter_succ_some _ e3, stateAfter_zero]
      rw [h3]
      exact ih t' h

lemma stateAfter_replicate_neg_one (n : Nat) :
    stateAfter (3 ^ n - 1) (List.replicate n (-1)) = some (List.replicate n 1) := by
  induction n with
  | zero => rfl
  | succ m ih =>
    have h3 : (1 : Nat) ≤ 3 ^ m := Nat.one_le_pow _ _ (by omega)
    have hrw : 3 ^ (m + 1) - 1 = 3 * (3 ^ m - 1) + 2 := by
      rw [pow_succ]
      omega
    rw [List.replicate_succ, hrw, List.replicate_succ]
    exact stateAfter_cons_neg_one _ _ _ ih

/-- Extra fuel beyond 3 ^ n - 1 adds nothing from the all -1 state: the
iterator has reached the all 1 state, whose next pull is None. -/
lemma odoFrom_replicate_neg_one_stable (n k : Nat) :
    odoFrom (3 ^ n - 1 + k) (List.replicate n (-1)) =
      odoFrom (3 ^ n - 1) (List.replicate n (-1)) := by
  rw [odoFrom_add, stateAfter_replicate_neg_one]
  simp [odoFrom_replicate_one]

lemma length_flatMap_triple (l : List (List Int)) :
    (l.flatMap (fun t => [-1 :: t, 0 :: t, 1 :: t])).length = 3 * l.length := by
  induction l with
  | nil => rfl
  | cons t l ih => simp [List.flatMap_cons, ih]; omega

lemma length_fullSeq (n : Nat) : (fullSeq n).length = 3 ^ n := by
  induction n with
  | zero => rfl
  | succ m ih =>
    rw [show fullSeq (m + 1) = (fullSeq m).flatMap (fun t => [-1 :: t, 0 :: t, 1 :: t]) from rfl]
    rw [length_flatMap_triple, ih, pow_succ]
    omega

lemma mem_fullSeq (n : Nat) (d : List Int) :
    d ∈ fullSeq n ↔ d.length = n ∧ ∀ v ∈ d, v = -1 ∨ v = 0 ∨ v = 1 := by
  induction n generalizing d with
  | zero =>
    rw [show fullSeq 0 = [[]] from rfl]
    simp [List.length_eq_zero]
    intro h
    subst h
    simp
  | succ m ih =>
    rw [show fullSeq (m + 1) = (fullSeq m).flatMap (fun t => [-1 :: t, 0 :: t, 1 :: t]) from rfl]
    rw [List.mem_flatMap]
    constructor
    · rintro ⟨t, ht, hd⟩
      obtain ⟨htl, htv⟩ := (ih t).mp ht
      simp only [List.mem_cons, List.not_mem_nil, or_false] at hd
      rcases hd with rfl | rfl | rfl
      all_goals
        refine ⟨by simp [htl], ?_⟩
        intro v hv
        rcases List.mem_cons.mp hv with rfl | hv
        · norm_num
        · exact htv v hv
    · rintro ⟨hl, hv⟩
      cases d with
      | nil => simp at hl
      | cons v t =>
        refine ⟨t, (ih t).mpr ⟨by simpa using hl, fun w hw => hv w (List.mem_cons_of_mem _ hw)⟩, ?_⟩
        have := hv v (List.mem_cons_self _ _)
        simp only [List.mem_cons, List.not_mem_nil, or_false]
        rcases this with rfl | rfl | rfl
        · exact Or.inl rfl
        · exact Or.inr (Or.inl rfl)
        · exact Or.inr (Or.inr rfl)

lemma nodup_fullSeq (n : Nat) : (fullSeq n).Nodup := by
  induction n with
  | zero => simp [fullSeq]
  | succ m ih =>
    rw [show fullSeq (m + 1) = (fullSeq m).flatMap (fun t => [-1 :: t, 0 :: t, 1 :: t]) from rfl]
    rw [List.nodup_flatMap]
    constructor
    · intro t _
      simp
    · refine ih.imp ?_
      intro t₁ t₂ hne
      intro a ha1 ha2
      simp only [Function.onFun, List.mem_cons, List.not_mem_nil, or_false] at ha1 ha2
      rcases ha1 with rfl | rfl | rfl <;>
        rcases ha2 with h | h | h <;>
        exact hne (congrArg List.tail h)

lemma incr_deltasInit (N : Nat) (h : 1 ≤ N) :
    incr (deltasInit N) = some (List.replicate N (-1)) := by
  obtain ⟨m, rfl⟩ : ∃ m, N = m + 1 := ⟨N - 1, by omega⟩
  rw [deltasInit, incr_cons_of_ne _ (by decide)]
  norm_num
  rw [List.replicate_succ]

lemma rawDeltas_eq_fullSeq (N : Nat) (h : 1 ≤ N) : rawDeltas N = fullSeq N := by
  have h1 : (1 : Nat) ≤ 3 ^ N := Nat.one_le_pow _ _ (by omega)
  rw [rawDeltas, show 3 ^ N = 3 ^ N - 1 + 1 from by omega]
  rw [odoFrom_succ_some _ (incr_deltasInit N h)]
  exact odoFrom_replicate_neg_one N

/-- The deltas iterator terminates: fuel beyond 3 ^ N changes nothing, i.e.
the source iterator returns None forever after the 3 ^ N-th pull. -/
lemma odoFrom_deltasInit_stable (N k : Nat) (h : 1 ≤ N) :
    odoFrom (3 ^ N + k) (deltasInit N) = rawDeltas N := by
  have h1 : (1 : Nat) ≤ 3 ^ N := Nat.one_le_pow _ _ (by omega)
  rw [show 3 ^ N + k = 3 ^ N - 1 + k + 1 from by omega]
  rw [odoFrom_succ_some _ (incr_deltasInit N h)]
  rw [odoFrom_replicate_neg_one_stable]
  rw [rawDeltas_eq_fullSeq N h, ← odoFrom_replicate_neg_one N]

lemma mem_deltas (N : Nat) (h : 1 ≤ N) (d : List Int) :
    d ∈ deltas N ↔
      d.length = N ∧ (∀ v ∈ d, v = -1 ∨ v = 0 ∨ v = 1) ∧ d ≠ List.replicate N 0 := by
  rw [deltas, List.mem_filter, rawDeltas_eq_fullSeq N h, mem_fullSeq]
  constructor
  · rintro ⟨⟨hl, hv⟩, hany⟩
    refine ⟨hl, hv, ?_⟩
    intro hrep
    subst hrep
    simp at hany
  · rintro ⟨hl, hv, hne⟩
    refine ⟨⟨hl, hv⟩, ?_⟩
    simp only [List.any_eq_true, decide_eq_true_eq]
    by_contra hall
    push_neg at hall
    exact hne (List.eq_replicate_iff.mpr ⟨hl, hall⟩)

lemma nodup_deltas (N : Nat) (h : 1 ≤ N) : (deltas N).Nodup := by
  rw [deltas, rawDeltas_eq_fullSeq N h]
  exact (nodup_fullSeq N).filter _

lemma length_filter_ne_of_nodup_mem {α : Type _} [DecidableEq α] (l : List α) (a : α)
    (hn : l.Nodup) (ha : a ∈ l) :
    (l.filter (fun x => decide (x ≠ a))).length = l.length - 1 := by
  induction l with
  | nil => cases ha
  | cons b l ih =>
    rcases List.mem_cons.mp ha with rfl | ha'
    · have hnotmem : a ∉ l := (List.nodup_cons.mp hn).1
      have hkeep : l.filter (fun x => decide (x ≠ a)) = l := by
        rw [List.filter_eq_self]
        intro x hx
        simp only [decide_eq_true_eq]
        intro hxa
        exact hnotmem (hxa ▸ hx)
      rw [List.filter_cons, if_neg (by simp), hkeep, List.length_cons]
      omega
    · have hba : b ≠ a := by
        rintro rfl
        exact (List.nodup_cons.mp hn).1 ha'
      have hlen : 1 ≤ l.length := List.length_pos.mpr (List.ne_nil_of_mem ha')
      rw [List.filter_cons, if_pos (decide_eq_true hba)]
      simp only [List.length_cons]
      rw [ih (List.nodup_cons.mp hn).2 ha']
      omega

lemma length_deltas (N : Nat) (h : 1 ≤ N) : (deltas N).length = 3 ^ N - 1 := by
  rw [deltas, rawDeltas_eq_fullSeq N h]
  have hcongr : (fullSeq N).filter (fun ds => ds.any (fun d => decide (d ≠ 0))) =
      (fullSeq N).filter (fun ds => decide (ds ≠ List.replicate N 0)) := by
    apply List.filter_congr
    intro x hx
    obtain ⟨hl, -⟩ := (mem_fullSeq N x).mp hx
    have hiff : (∃ v ∈ x, v ≠ 0) ↔ x ≠ List.replicate N 0 := by
      constructor
      · rintro ⟨v, hv, hv0⟩ hrep
        subst hrep
        exact hv0 (List.eq_of_mem_replicate hv)
      · intro hne
        by_contra hall
        push_neg at hall
        exact hne (List.eq_replicate_iff.mpr ⟨hl, hall⟩)
    rw [Bool.eq_iff_iff]
    simp only [List.any_eq_true, decide_eq_true_eq]
    exact hiff
  rw [hcongr]
  have hrep_mem : List.replicate N 0 ∈ fullSeq N := by
    rw [mem_fullSeq]
    refine ⟨List.length_replicate _ _, ?_⟩
    intro v hv
    rw [List.eq_of_mem_replicate hv]
    norm_num
  rw [length_filter_ne_of_nodup_mem _ _ (nodup_fullSeq N) hrep_mem, length_fullSeq]

/-! ### The Life data model (life.rs lines 28-42, error.rs)

HashSet of [i64; N] becomes Finset (List Int) (each coordinate a list of
length N); HashSet of usize becomes Finset Nat.  The scratch HashMap
dead_neighbours is stored by its denotation, the per-coordinate count. -/

/-- Error type of the library (error.rs). -/
inductive Error where
  | TooHighRule (neighbours max_neighbours : Nat)
  | ZeroDimension
  | ZeroNeighbourBirthRule
deriving DecidableEq

/-- The Life state (life.rs lines 28-42). -/
structure Life (N : Nat) where
  age : Nat
  birth_rules : Finset Nat
  survival_rules : Finset Nat
  alive_cells : Finset (List Int)
  prev_alive : Finset (List Int)
  dead_neighbours : List Int → Nat

/-- Maximum number of neighbours with dimension N (life.rs line 45). -/
def Life.MAX_NEIGHBOURS (N : Nat) : Nat := 3 ^ N - 1

/-- Constructor with alive cells (life.rs lines 102-122).  The rule-set
arguments are lists, capturing the iteration order of the Rust HashSet
arguments; the chained scan of birth then survival rules returning the
first too-high rule is List.find? on the concatenation. -/
def Life.new_with_alive_cells (N : Nat) (birth_rules survival_rules : List Nat)
    (alive_cells : Finset (List Int)) : Except Error (Life N) :=
  if N = 0 then .error .ZeroDimension
  else if 0 ∈ birth_rules then .error .ZeroNeighbourBirthRule
  else
    match (birth_rules ++ survival_rules).find?
        (fun rule => decide (Life.MAX_NEIGHBOURS N < rule)) with
    | some rule => .error (.TooHighRule rule (Life.MAX_NEIGHBOURS N))
    | none =>
      .ok { age := 0
            birth_rules := birth_rules.toFinset
            survival_rules := survival_rules.toFinset
            alive_cells := alive_cells
            prev_alive := ∅
            dead_neighbours := fun _ => 0 }

/-- Constructor without alive cells (life.rs lines 71-73). -/
def Life.new (N : Nat) (birth_rules survival_rules : List Nat) : Except Error (Life N) :=
  Life.new_with_alive_cells N birth_rules survival_rules ∅

/-- Birth-rule setter (life.rs lines 160-171).  The Rust method mutates self
and returns Result<(), Error>; modelled as returning the result together
with the state after the call (unchanged on the early error returns). -/
def Life.set_birth_rules {N : Nat} (life : Life N) (birth_rules : List Nat) :
    Except Error Unit × Life N :=
  if 0 ∈ birth_rules then (.error .ZeroNeighbourBirthRule, life)
  else
    match birth_rules.find? (fun rule => decide (Life.MAX_NEIGHBOURS N < rule)) with
    | some rule => (.error (.TooHighRule rule (Life.MAX_NEIGHBOURS N)), life)
    | none => (.ok (), { life with birth_rules := birth_rules.toFinset })

/-- Survival-rule setter (life.rs lines 200-208): no zero-rule check. -/
def Life.set_survival_rules {N : Nat} (life : Life N) (survival_rules : List Nat) :
    Except Error Unit × Life N :=
  match survival_rules.find? (fun rule => decide (Life.MAX_NEIGHBOURS N < rule)) with
  | some rule => (.error (.TooHighRule rule (Life.MAX_NEIGHBOURS N)), life)
  | none => (.ok (), { life with survival_rules := survival_rules.toFinset })

/-- Alive-cell set replacement (life.rs lines 230-232). -/
def Life.set_alive_cells {N : Nat} (life : Life N) (alive_cells : Finset (List Int)) :
    Life N :=
  { life with alive_cells := alive_cells }

/-- Cell query (life.rs lines 250-252). -/
def Life.get_cell {N : Nat} (life : Life N) (cell : List Int) : Bool :=
  decide (cell ∈ life.alive_cells)

/-- Cell update (life.rs lines 273-279): HashSet::insert returns whether the
value was newly inserted, HashSet::remove whether it was present. -/
def Life.set_cell {N : Nat} (life : Life N) (cell : List Int) (state : Bool) :
    Bool × Life N :=
  if state then
    (decide (cell ∉ life.alive_cells), { life with alive_cells := insert cell life.alive_cells })
  else
    (decide (cell ∈ life.alive_cells), { life with alive_cells := life.alive_cells.erase cell })

/-- Cell toggle (life.rs lines 299-303). -/
def Life.toggle_cell {N : Nat} (life : Life N) (cell : List Int) : Life N :=
  if cell ∈ life.alive_cells then { life with alive_cells := life.alive_cells.erase cell }
  else { life with alive_cells := insert cell life.alive_cells }

/-- Changed cells (life.rs lines 369-371): the symmetric difference of the
previous and current alive sets, as a set (the source returns a lazy
iterator over it). -/
def Life.changed_cells {N : Nat} (life : Life N) : Finset (List Int) :=
  (life.prev_alive \ life.alive_cells) ∪ (life.alive_cells \ life.prev_alive)

/-- Componentwise coordinate addition used at life.rs line 335. -/
def addVec (c d : List Int) : List Int := List.zipWith (· + ·) c d

/-- Number of alive neighbours of an alive cell seen during the delta scan
(life.rs lines 333-341). -/
def aliveNeighbours (N : Nat) (prev : Finset (List Int)) (c : List Int) : Nat :=
  ((deltas N).map (fun d => addVec c d)).countP (fun nb => decide (nb ∈ prev))

/-- Final value of the dead_neighbours tally for a coordinate after the scan
(life.rs line 339): one increment for every pair of an alive cell and a
delta whose sum is the coordinate; coordinates in the previous alive set
never receive an entry. -/
def deadTally (N : Nat) (prev : Finset (List Int)) (x : List Int) : Nat :=
  if x ∈ prev then 0
  else prev.sum (fun a => (deltas N).countP (fun d => decide (addVec a d = x)))

/-- Key set of the dead_neighbours map after the scan: dead coordinates that
occurred as a neighbour of some alive cell. -/
def deadKeys (N : Nat) (prev : Finset (List Int)) : Finset (List Int) :=
  prev.biUnion (fun a => ((deltas N).map (fun d => addVec a d)).toFinset) \ prev

/-- One generation step (life.rs lines 306-352).  The alive set is swapped
into prev_alive before being rebuilt; survivors are previously alive cells
whose alive-neighbour count is in the survival rules; births are keys of
the dead-neighbour tally whose count is in the birth rules. -/
def Life.next_generation {N : Nat} (life : Life N) : Life N :=
  { age := life.age + 1
    birth_rules := life.birth_rules
    survival_rules := life.survival_rules
    prev_alive := life.alive_cells
    alive_cells :=
      life.alive_cells.filter
          (fun c => aliveNeighbours N life.alive_cells c ∈ life.survival_rules) ∪
        (deadKeys N life.alive_cells).filter
          (fun x => deadTally N life.alive_cells x ∈ life.birth_rules)
    dead_neighbours := fun x => deadTally N life.alive_cells x }

/-- Convenience constructor (life.rs lines 386-388).  The source unwraps;
claim_C9 below shows the error branch is unreachable. -/
def conways_game_of_life : Except Error (Life 2) :=
  Life.new 2 [3] [2, 3]

/-! ### Claim-side Moore-neighbourhood vocabulary

Stated from the claims and the spec glossary: x is a Moore neighbour of c
when both have dimension N, each component differs by -1, 0 or 1, and x is
not c itself.  These definitions are compared against the source-derived
deltas enumeration below. -/

/-- Moore-neighbour relation, from the spec glossary. -/
def isMooreNbr (N : Nat) (c x : List Int) : Prop :=
  c.length = N ∧ x.length = N ∧ x ≠ c ∧
    ∀ i, i < N →
      x.getD i 0 - c.getD i 0 = -1 ∨ x.getD i 0 - c.getD i 0 = 0 ∨
        x.getD i 0 - c.getD i 0 = 1

instance isMooreNbr.instDecidable (N : Nat) (c x : List Int) :
    Decidable (isMooreNbr N c x) := by
  unfold isMooreNbr
  infer_instance

/-- Number of alive cells among the Moore neighbours of a coordinate. -/
def mooreCount (N : Nat) (prev : Finset (List Int)) (c : List Int) : Nat :=
  (prev.filter (fun a => isMooreNbr N c a)).card

/-- Componentwise difference, the inverse of addVec. -/
def subVec (x c : List Int) : List Int := List.zipWith (fun a b => a - b) x c

lemma addVec_length (c d : List Int) : (addVec c d).length = min c.length d.length := by
  rw [addVec, List.length_zipWith]

lemma subVec_length (x c : List Int) : (subVec x c).length = min x.length c.length := by
  rw [subVec, List.length_zipWith]

lemma addVec_getD (c d : List Int) (i : Nat) (h1 : i < c.length) (h2 : i < d.length) :
    (addVec c d).getD i 0 = c.getD i 0 + d.getD i 0 := by
  have hz : i < (addVec c d).length := by rw [addVec_length]; omega
  rw [List.getD_eq_getElem _ _ h1, List.getD_eq_getElem _ _ h2, List.getD_eq_getElem _ _ hz]
  simp [addVec]

lemma subVec_getD (x c : List Int) (i : Nat) (h1 : i < x.length) (h2 : i < c.length) :
    (subVec x c).getD i 0 = x.getD i 0 - c.getD i 0 := by
  have hz : i < (subVec x c).length := by rw [subVec_length]; omega
  rw [List.getD_eq_getElem _ _ h1, List.getD_eq_getElem _ _ h2, List.getD_eq_getElem _ _ hz]
  simp [subVec]

lemma eq_iff_getD {l₁ l₂ : List Int} (N : Nat) (h1 : l₁.length = N) (h2 : l₂.length = N) :
    l₁ = l₂ ↔ ∀ i, i < N → l₁.getD i 0 = l₂.getD i 0 := by
  constructor
  · rintro rfl i _
    rfl
  · intro h
    apply List.ext_getElem (by omega)
    intro n hn1 hn2
    have hd := h n (by omega)
    rwa [List.getD_eq_getElem _ _ hn1, List.getD_eq_getElem _ _ hn2] at hd

lemma forall_mem_iff_getD {l : List Int} {N : Nat} (h : l.length = N) (P : Int → Prop) :
    (∀ v ∈ l, P v) ↔ ∀ i, i < N → P (l.getD i 0) := by
  constructor
  · intro hv i hi
    have hil : i < l.length := by omega
    rw [List.getD_eq_getElem _ _ hil]
    exact hv _ (List.getElem_mem hil)
  · intro hv v hvl
    obtain ⟨i, hi, rfl⟩ := List.mem_iff_getElem.mp hvl
    have hgd := hv i (by omega)
    rwa [List.getD_eq_getElem _ _ hi] at hgd

lemma getD_replicate_zero (N i : Nat) : (List.replicate N (0 : Int)).getD i 0 = 0 := by
  rcases Nat.lt_or_ge i N with h | h
  · rw [List.getD_eq_getElem _ _ (by simpa using h)]
    simp
  · rw [List.getD_eq_default _ _ (by simpa using h)]

lemma isMooreNbr_comm (N : Nat) (c x : List Int) :
    isMooreNbr N c x ↔ isMooreNbr N x c := by
  unfold isMooreNbr
  constructor
  all_goals
    rintro ⟨h1, h2, h3, h4⟩
    refine ⟨h2, h1, fun he => h3 he.symm, ?_⟩
    intro i hi
    have hc := h4 i hi
    omega

/-- The neighbour coordinates scanned for a cell are exactly its Moore
neighbours: the bridge between the source odometer and the spec
neighbourhood. -/
lemma mem_neighbourList_iff (N : Nat) (hN : 1 ≤ N) (c x : List Int) (hc : c.length = N) :
    x ∈ (deltas N).map (fun d => addVec c d) ↔ isMooreNbr N c x := by
  rw [List.mem_map]
  constructor
  · rintro ⟨d, hd, rfl⟩
    obtain ⟨hdl, hdv, hdne⟩ := (mem_deltas N hN d).mp hd
    have hxl : (addVec c d).length = N := by rw [addVec_length]; omega
    refine ⟨hc, hxl, ?_, ?_⟩
    · intro heq
      apply hdne
      rw [eq_iff_getD N hdl (List.length_replicate _ _)]
      intro i hi
      have h1 := addVec_getD c d i (by omega) (by omega)
      have h2 : (addVec c d).getD i 0 = c.getD i 0 := by rw [heq]
      rw [getD_replicate_zero]
      omega
    · intro i hi
      have h1 := addVec_getD c d i (by omega) (by omega)
      have hmem : d.getD i 0 ∈ d := by
        rw [List.getD_eq_getElem _ _ (by omega)]
        exact List.getElem_mem (by omega)
      have hv := hdv _ hmem
      omega
  · rintro ⟨-, hxl, hne, hcomp⟩
    have hdl : (subVec x c).length = N := by rw [subVec_length]; omega
    refine ⟨subVec x c, ?_, ?_⟩
    · rw [mem_deltas N hN]
      refine ⟨hdl, ?_, ?_⟩
      · rw [forall_mem_iff_getD hdl]
        intro i hi
        rw [subVec_getD x c i (by omega) (by omega)]
        exact hcomp i hi
      · intro hrep
        apply hne
        rw [eq_iff_getD N hxl hc]
        intro i hi
        have h1 := subVec_getD x c i (by omega) (by omega)
        rw [hrep, getD_replicate_zero] at h1
        omega
    · rw [eq_iff_getD N (by rw [addVec_length]; omega) hxl]
      intro i hi
      rw [addVec_getD c (subVec x c) i (by omega) (by omega),
        subVec_getD x c i (by omega) (by omega)]
      omega

lemma nodup_neighbourList (N : Nat) (hN : 1 ≤ N) (c : List Int) (hc : c.length = N) :
    ((deltas N).map (fun d => addVec c d)).Nodup := by
  apply List.Nodup.map_on ?_ (nodup_deltas N hN)
  intro d1 h1 d2 h2 heq
  obtain ⟨hl1, -, -⟩ := (mem_deltas N hN d1).mp h1
  obtain ⟨hl2, -, -⟩ := (mem_deltas N hN d2).mp h2
  rw [eq_iff_getD N hl1 hl2]
  intro i hi
  have e1 := addVec_getD c d1 i (by omega) (by omega)
  have e2 := addVec_getD c d2 i (by omega) (by omega)
  rw [heq] at e1
  omega

lemma countP_mem_eq_card_filter (l : List (List Int)) (hl : l.Nodup)
    (s : Finset (List Int)) :
    l.countP (fun x => decide (x ∈ s)) = (s.filter (fun x => x ∈ l)).card := by
  rw [List.countP_eq_length_filter]
  have hnd : (l.filter (fun x => decide (x ∈ s))).Nodup := hl.filter _
  rw [← List.toFinset_card_of_nodup hnd]
  congr 1
  ext x
  simp only [List.mem_toFinset, List.mem_filter, Finset.mem_filter, decide_eq_true_eq]
  exact and_comm

/-- The alive-neighbour count computed by the scan equals the number of
alive Moore neighbours. -/
lemma aliveNeighbours_eq_mooreCount (N : Nat) (hN : 1 ≤ N) (prev : Finset (List Int))
    (c : List Int) (hc : c.length = N) :
    aliveNeighbours N prev c = mooreCount N prev c := by
  rw [aliveNeighbours, countP_mem_eq_card_filter _ (nodup_neighbourList N hN c hc) prev,
    mooreCount]
  congr 1
  apply Finset.filter_congr
  intro a ha
  exact mem_neighbourList_iff N hN c a hc

lemma countP_eq_ite_of_unique {α : Type _} [DecidableEq α] (l : List α) (p : α → Bool)
    (a : α) (hl : l.Nodup) (hu : ∀ x ∈ l, p x = true → x = a) :
    l.countP p = if a ∈ l ∧ p a = true then 1 else 0 := by
  induction l with
  | nil => simp
  | cons b l ih =>
    rw [List.countP_cons]
    have hnd := List.nodup_cons.mp hl
    have hrec := ih hnd.2 (fun x hx hpx => hu x (List.mem_cons_of_mem _ hx) hpx)
    by_cases hb : p b = true
    · have hba : b = a := hu b (List.mem_cons_self _ _) hb
      subst hba
      have hzero : l.countP p = 0 := by
        rw [List.countP_eq_zero]
        intro x hx hpx
        exact hnd.1 ((hu x (List.mem_cons_of_mem _ hx) hpx) ▸ hx)
      simp [hzero, hb]
    · by_cases hab : a = b
      · subst hab
        simp [hb, hrec]
      · have hcond : (a ∈ b :: l ∧ p a = true) ↔ (a ∈ l ∧ p a = true) := by
          simp only [List.mem_cons]
          constructor
          · rintro ⟨h1 | h1, h2⟩
            · exact absurd h1 hab
            · exact ⟨h1, h2⟩
          · rintro ⟨h1, h2⟩
            exact ⟨Or.inr h1, h2⟩
        rw [hrec, if_congr hcond rfl rfl]
        simp [hb]

lemma addVec_subVec (N : Nat) (a x : List Int) (ha : a.length = N) (hx : x.length = N) :
    addVec a (subVec x a) = x := by
  rw [eq_iff_getD N (by rw [addVec_length, subVec_length]; omega) hx]
  intro i hi
  rw [addVec_getD a (subVec x a) i (by omega) (by rw [subVec_length]; omega),
    subVec_getD x a i (by omega) (by omega)]
  omega

lemma subVec_mem_deltas_iff (N : Nat) (hN : 1 ≤ N) (a x : List Int)
    (ha : a.length = N) (hx : x.length = N) :
    subVec x a ∈ deltas N ↔ isMooreNbr N a x := by
  have hdl : (subVec x a).length = N := by rw [subVec_length]; omega
  rw [mem_deltas N hN]
  unfold isMooreNbr
  constructor
  · rintro ⟨-, hcomp, hne⟩
    refine ⟨ha, hx, ?_, ?_⟩
    · intro hxa
      apply hne
      subst hxa
      rw [eq_iff_getD N hdl (List.length_replicate _ _)]
      intro i hi
      rw [subVec_getD x x i (by omega) (by omega), getD_replicate_zero]
      omega
    · intro i hi
      rw [forall_mem_iff_getD hdl] at hcomp
      have hc := hcomp i hi
      rw [subVec_getD x a i (by omega) (by omega)] at hc
      exact hc
  · rintro ⟨-, -, hne, hcomp⟩
    refine ⟨hdl, ?_, ?_⟩
    · rw [forall_mem_iff_getD hdl]
      intro i hi
      rw [subVec_getD x a i (by omega) (by omega)]
      exact hcomp i hi
    · intro hrep
      apply hne
      rw [eq_iff_getD N hx ha]
      intro i hi
      have h1 := subVec_getD x a i (by omega) (by omega)
      rw [hrep, getD_replicate_zero] at h1
      omega

/-- The final dead-neighbour tally of a dead coordinate equals its number
of alive Moore neighbours. -/
lemma deadTally_eq_mooreCount (N : Nat) (hN : 1 ≤ N) (prev : Finset (List Int))
    (x : List Int) (hx : x.length = N) (hxp : x ∉ prev)
    (hprev : ∀ a ∈ prev, a.length = N) :
    deadTally N prev x = mooreCount N prev x := by
  rw [deadTally, if_neg hxp, mooreCount, Finset.card_filter]
  apply Finset.sum_congr rfl
  intro a ha
  have hal : a.length = N := hprev a ha
  have huniq : ∀ d ∈ deltas N, (decide (addVec a d = x) : Bool) = true → d = subVec x a := by
    intro d hd hpd
    rw [decide_eq_true_eq] at hpd
    obtain ⟨hdl, -, -⟩ := (mem_deltas N hN d).mp hd
    rw [eq_iff_getD N hdl (by rw [subVec_length]; omega)]
    intro i hi
    have h1 : (addVec a d).getD i 0 = x.getD i 0 := by rw [hpd]
    rw [addVec_getD a d i (by omega) (by omega)] at h1
    rw [subVec_getD x a i (by omega) (by omega)]
    omega
  rw [countP_eq_ite_of_unique _ _ (subVec x a) (nodup_deltas N hN) huniq]
  have hcond : (subVec x a ∈ deltas N ∧
      (decide (addVec a (subVec x a) = x) : Bool) = true) ↔ isMooreNbr N x a := by
    rw [subVec_mem_deltas_iff N hN a x hal hx, decide_eq_true_eq,
      addVec_subVec N a x hal hx]
    constructor
    · rintro ⟨h1, -⟩
      exact (isMooreNbr_comm N a x).mp h1
    · intro h1
      exact ⟨(isMooreNbr_comm N a x).mpr h1, rfl⟩
  simp only [hcond]

/-- Membership in the key set of the dead-neighbour tally. -/
lemma mem_deadKeys (N : Nat) (hN : 1 ≤ N) (prev : Finset (List Int))
    (hprev : ∀ a ∈ prev, a.length = N) (x : List Int) :
    x ∈ deadKeys N prev ↔ x ∉ prev ∧ ∃ a ∈ prev, isMooreNbr N x a := by
  rw [deadKeys, Finset.mem_sdiff, Finset.mem_biUnion, and_comm]
  apply and_congr_right
  intro hxp
  constructor
  · rintro ⟨a, ha, hmem⟩
    rw [List.mem_toFinset, mem_neighbourList_iff N hN a x (hprev a ha)] at hmem
    exact ⟨a, ha, (isMooreNbr_comm N a x).mp hmem⟩
  · rintro ⟨a, ha, hnbr⟩
    refine ⟨a, ha, ?_⟩
    rw [List.mem_toFinset, mem_neighbourList_iff N hN a x (hprev a ha)]
    exact (isMooreNbr_comm N x a).mp hnbr

/-! ### Claim theorems -/

/-- Concrete states used to instantiate theorems with hypotheses. -/
def blinkerLife : Life 2 :=
  { age := 0
    birth_rules := {3}
    survival_rules := {2, 3}
    alive_cells := {[0, 0], [1, 0], [2, 0]}
    prev_alive := ∅
    dead_neighbours := fun _ => 0 }

/-- claim C1: one next_generation call increments age by exactly 1 and makes
the alive set exactly the survivors (alive cells whose alive Moore-neighbour
count is in the survival rules) together with the births (dead cells with at
least one alive Moore neighbour whose alive Moore-neighbour count is in the
birth rules). -/
theorem claim_C1_next_generation_step (N : Nat) (life : Life N) (hN : 1 ≤ N)
    (hwf : ∀ c ∈ life.alive_cells, c.length = N) :
    life.next_generation.age = life.age + 1 ∧
      ∀ c : List Int,
        c ∈ life.next_generation.alive_cells ↔
          ((c ∈ life.alive_cells ∧
              mooreCount N life.alive_cells c ∈ life.survival_rules) ∨
            (c ∉ life.alive_cells ∧ (∃ a ∈ life.alive_cells, isMooreNbr N c a) ∧
              mooreCount N life.alive_cells c ∈ life.birth_rules)) := by
  refine ⟨rfl, ?_⟩
  intro c
  show c ∈ Finset.filter _ life.alive_cells ∪ Finset.filter _ (deadKeys N life.alive_cells) ↔ _
  rw [Finset.mem_union, Finset.mem_filter, Finset.mem_filter,
    mem_deadKeys N hN life.alive_cells hwf c]
  constructor
  · rintro (⟨hcp, hs⟩ | ⟨⟨hnp, a, ha, hnbr⟩, hb⟩)
    · left
      rw [aliveNeighbours_eq_mooreCount N hN _ c (hwf c hcp)] at hs
      exact ⟨hcp, hs⟩
    · right
      have hcl : c.length = N := hnbr.1
      rw [deadTally_eq_mooreCount N hN _ c hcl hnp hwf] at hb
      exact ⟨hnp, ⟨a, ha, hnbr⟩, hb⟩
  · rintro (⟨hcp, hs⟩ | ⟨hnp, ⟨a, ha, hnbr⟩, hb⟩)
    · left
      rw [← aliveNeighbours_eq_mooreCount N hN _ c (hwf c hcp)] at hs
      exact ⟨hcp, hs⟩
    · right
      have hcl : c.length = N := hnbr.1
      rw [← deadTally_eq_mooreCount N hN _ c hcl hnp hwf] at hb
      exact ⟨⟨hnp, a, ha, hnbr⟩, hb⟩

/-- Witness for claim C1 at a concrete two-dimensional state. -/
theorem claim_C1_witness :
    ((1 ≤ 2) ∧ (∀ c ∈ blinkerLife.alive_cells, c.length = 2)) ∧
      (blinkerLife.next_generation.age = blinkerLife.age + 1 ∧
        ∀ c : List Int,
          c ∈ blinkerLife.next_generation.alive_cells ↔
            ((c ∈ blinkerLife.alive_cells ∧
                mooreCount 2 blinkerLife.alive_cells c ∈ blinkerLife.survival_rules) ∨
              (c ∉ blinkerLife.alive_cells ∧
                (∃ a ∈ blinkerLife.alive_cells, isMooreNbr 2 c a) ∧
                mooreCount 2 blinkerLife.alive_cells c ∈ blinkerLife.birth_rules))) :=
  ⟨⟨by decide, by decide⟩,
    claim_C1_next_generation_step 2 blinkerLife (by decide) (by decide)⟩

/-- claim C2: a fresh deltas iterator for dimension N yields exactly
3 ^ N - 1 pairwise distinct offset vectors, namely every length-N vector
over {-1, 0, 1} except the all-zero one, and then terminates (extra pulls
beyond the 3 ^ N raw ones produce nothing). -/
theorem claim_C2_deltas_enumeration (N : Nat) (hN : 1 ≤ N) :
    (deltas N).length = 3 ^ N - 1 ∧
      (deltas N).Nodup ∧
      (∀ d : List Int,
        d ∈ deltas N ↔
          d.length = N ∧ (∀ v ∈ d, v = -1 ∨ v = 0 ∨ v = 1) ∧
            d ≠ List.replicate N 0) ∧
      ∀ extra : Nat, odoFrom (3 ^ N + extra) (deltasInit N) = rawDeltas N :=
  ⟨length_deltas N hN, nodup_deltas N hN, mem_deltas N hN,
    fun extra => odoFrom_deltasInit_stable N extra hN⟩

/-- Witness for claim C2 at dimension 1. -/
theorem claim_C2_witness :
    (1 ≤ 1) ∧
      ((deltas 1).length = 3 ^ 1 - 1 ∧
        (deltas 1).Nodup ∧
        (∀ d : List Int,
          d ∈ deltas 1 ↔
            d.length = 1 ∧ (∀ v ∈ d, v = -1 ∨ v = 0 ∨ v = 1) ∧
              d ≠ List.replicate 1 0) ∧
        ∀ extra : Nat, odoFrom (3 ^ 1 + extra) (deltasInit 1) = rawDeltas 1) :=
  ⟨by decide, claim_C2_deltas_enumeration 1 (by decide)⟩

lemma find?_eq_some_of_first {l : List Nat} {p : Nat → Bool} (i : Nat)
    (hi : i < l.length) (hp : p (l.get ⟨i, hi⟩) = true)
    (hmin : ∀ j (hj : j < i), p (l.get ⟨j, Nat.lt_trans hj hi⟩) = false) :
    l.find? p = some (l.get ⟨i, hi⟩) := by
  induction l generalizing i with
  | nil => cases hi
  | cons b l ih =>
    cases i with
    | zero =>
      exact List.find?_cons_of_pos _ hp
    | succ m =>
      have hb : p b = false := hmin 0 (Nat.succ_pos m)
      rw [List.find?_cons_of_neg _ (by simp [hb])]
      exact ih m (by simpa using hi) hp (fun j hj => hmin (j + 1) (by omega))

/-- claim C3: construction returns ZeroDimension for N = 0 regardless of the
rules, else ZeroNeighbourBirthRule when 0 is a birth rule, else
TooHighRule (v, 3 ^ N - 1) for the first too-high value scanning birth rules
before survival rules, else Ok with age 0, the given rules, and the given
alive set (new delegates with an empty alive set). -/
theorem claim_C3_construction_validation (N : Nat) (birth survival : List Nat)
    (alive : Finset (List Int)) :
    (Life.new N birth survival = Life.new_with_alive_cells N birth survival ∅) ∧
      (N = 0 →
        Life.new_with_alive_cells N birth survival alive = .error .ZeroDimension) ∧
      (N ≠ 0 → 0 ∈ birth →
        Life.new_with_alive_cells N birth survival alive =
          .error .ZeroNeighbourBirthRule) ∧
      (N ≠ 0 → 0 ∉ birth →
        ∀ (i : Nat) (hi : i < (birth ++ survival).length),
          Life.MAX_NEIGHBOURS N < (birth ++ survival).get ⟨i, hi⟩ →
          (∀ j (hj : j < i),
            (birth ++ survival).get ⟨j, Nat.lt_trans hj hi⟩ ≤ Life.MAX_NEIGHBOURS N) →
          Life.new_with_alive_cells N birth survival alive =
            .error (.TooHighRule ((birth ++ survival).get ⟨i, hi⟩)
              (Life.MAX_NEIGHBOURS N))) ∧
      (N ≠ 0 → 0 ∉ birth →
        (∀ r ∈ birth ++ survival, r ≤ Life.MAX_NEIGHBOURS N) →
        Life.new_with_alive_cells N birth survival alive =
          .ok { age := 0
                birth_rules := birth.toFinset
                survival_rules := survival.toFinset
                alive_cells := alive
                prev_alive := ∅
                dead_neighbours := fun _ => 0 }) := by
  refine ⟨rfl, ?_, ?_, ?_, ?_⟩
  · intro h0
    rw [Life.new_with_alive_cells, if_pos h0]
  · intro h0 hb
    rw [Life.new_with_alive_cells, if_neg h0, if_pos hb]
  · intro h0 hb i hi hhigh hmin
    rw [Life.new_with_alive_cells, if_neg h0, if_neg hb]
    rw [find?_eq_some_of_first i hi (decide_eq_true hhigh)
      (fun j hj => decide_eq_false (Nat.not_lt.mpr (hmin j hj)))]
  · intro h0 hb hall
    rw [Life.new_with_alive_cells, if_neg h0, if_neg hb]
    rw [List.find?_eq_none.mpr
      (fun x hx => by simpa using Nat.not_lt.mpr (hall x hx))]

/-- Witness for claim C3: all five branches at concrete inputs. -/
theorem claim_C3_witness :
    (Life.new 2 [3] [2, 3] = Life.new_with_alive_cells 2 [3] [2, 3] ∅) ∧
      (Life.new_with_alive_cells 0 [3] [2, 3] ({[0, 0]} : Finset (List Int)) =
        .error .ZeroDimension) ∧
      (Life.new_with_alive_cells 2 [0, 3] [2] ({[0, 0]} : Finset (List Int)) =
        .error .ZeroNeighbourBirthRule) ∧
      (Life.new_with_alive_cells 2 [9, 11] [2] ({[0, 0]} : Finset (List Int)) =
        .error (.TooHighRule 9 8)) ∧
      (Life.new_with_alive_cells 2 [3] [2, 3] ({[0, 0]} : Finset (List Int)) =
        .ok { age := 0
              birth_rules := [3].toFinset
              survival_rules := [2, 3].toFinset
              alive_cells := ({[0, 0]} : Finset (List Int))
              prev_alive := ∅
              dead_neighbours := fun _ => 0 }) :=
  ⟨(claim_C3_construction_validation 2 [3] [2, 3] ∅).1,
    (claim_C3_construction_validation 0 [3] [2, 3] {[0, 0]}).2.1 rfl,
    (claim_C3_construction_validation 2 [0, 3] [2] {[0, 0]}).2.2.1 (by decide) (by decide),
    (claim_C3_construction_validation 2 [9, 11] [2] {[0, 0]}).2.2.2.1 (by decide)
      (by decide) 0 (by decide) (by decide) (fun j hj => absurd hj (Nat.not_lt_zero j)),
    (claim_C3_construction_validation 2 [3] [2, 3] {[0, 0]}).2.2.2.2 (by decide)
      (by decide) (by decide)⟩

/-- claim C4: the setters are asymmetric — set_birth_rules rejects 0 and
too-high values (ZeroNeighbourBirthRule checked first), while
set_survival_rules checks only the too-high condition, so a survival rule
set containing 0 with all members at most 3 ^ N - 1 is accepted and
installed. -/
theorem claim_C4_setter_asymmetry (N : Nat) (life : Life N) (b s : List Nat) :
    (0 ∈ b → (life.set_birth_rules b).1 = .error .ZeroNeighbourBirthRule) ∧
      (0 ∉ b →
        ∀ (i : Nat) (hi : i < b.length), Life.MAX_NEIGHBOURS N < b.get ⟨i, hi⟩ →
          (∀ j (hj : j < i), b.get ⟨j, Nat.lt_trans hj hi⟩ ≤ Life.MAX_NEIGHBOURS N) →
          (life.set_birth_rules b).1 =
            .error (.TooHighRule (b.get ⟨i, hi⟩) (Life.MAX_NEIGHBOURS N))) ∧
      (0 ∈ s → (∀ v ∈ s, v ≤ Life.MAX_NEIGHBOURS N) →
        (life.set_survival_rules s).1 = .ok () ∧
          (life.set_survival_rules s).2 =
            { life with survival_rules := s.toFinset }) := by
  refine ⟨?_, ?_, ?_⟩
  · intro hb
    rw [Life.set_birth_rules, if_pos hb]
  · intro hb i hi hhigh hmin
    rw [Life.set_birth_rules, if_neg hb]
    rw [find?_eq_some_of_first i hi (decide_eq_true hhigh)
      (fun j hj => decide_eq_false (Nat.not_lt.mpr (hmin j hj)))]
  · intro h0 hall
    rw [Life.set_survival_rules,
      List.find?_eq_none.mpr (fun x hx => by simpa using Nat.not_lt.mpr (hall x hx))]
    exact ⟨rfl, rfl⟩

/-- Witness for claim C4 at concrete rule lists. -/
theorem claim_C4_witness :
    ((blinkerLife.set_birth_rules [0, 3]).1 = .error .ZeroNeighbourBirthRule) ∧
      ((blinkerLife.set_birth_rules [9, 3]).1 = .error (.TooHighRule 9 8)) ∧
      ((blinkerLife.set_survival_rules [0, 2]).1 = .ok () ∧
        (blinkerLife.set_survival_rules [0, 2]).2 =
          { blinkerLife with survival_rules := [0, 2].toFinset }) :=
  ⟨(claim_C4_setter_asymmetry 2 blinkerLife [0, 3] []).1 (by decide),
    (claim_C4_setter_asymmetry 2 blinkerLife [9, 3] []).2.1 (by decide) 0 (by decide)
      (by decide) (fun j hj => absurd hj (Nat.not_lt_zero j)),
    (claim_C4_setter_asymmetry 2 blinkerLife [] [0, 2]).2.2 (by decide) (by decide)⟩

/-- claim C5: whenever a rule setter returns an error, the whole state is
exactly as before the call — an invalid rule set is never partially
applied. -/
theorem claim_C5_setters_unchanged_on_error (N : Nat) (life : Life N)
    (rules : List Nat) (e : Error) :
    ((life.set_birth_rules rules).1 = .error e →
      (life.set_birth_rules rules).2 = life) ∧
      ((life.set_survival_rules rules).1 = .error e →
        (life.set_survival_rules rules).2 = life) := by
  constructor
  · intro herr
    rw [Life.set_birth_rules] at herr ⊢
    by_cases hb : 0 ∈ rules
    · rw [if_pos hb]
    · rw [if_neg hb] at herr ⊢
      cases hf : rules.find? (fun rule => decide (Life.MAX_NEIGHBOURS N < rule)) with
      | none =>
        rw [hf] at herr
        cases herr
      | some r => rfl
  · intro herr
    rw [Life.set_survival_rules] at herr ⊢
    cases hf : rules.find? (fun rule => decide (Life.MAX_NEIGHBOURS N < rule)) with
    | none =>
      rw [hf] at herr
      cases herr
    | some r => rfl

/-- Witness for claim C5 at concrete inputs. -/
theorem claim_C5_witness :
    ((blinkerLife.set_birth_rules [0]).1 = .error .ZeroNeighbourBirthRule) ∧
      ((blinkerLife.set_birth_rules [0]).2 = blinkerLife) ∧
      ((blinkerLife.set_survival_rules [9]).1 = .error (.TooHighRule 9 8)) ∧
      ((blinkerLife.set_survival_rules [9]).2 = blinkerLife) :=
  ⟨rfl,
    (claim_C5_setters_unchanged_on_error 2 blinkerLife [0] .ZeroNeighbourBirthRule).1 rfl,
    rfl,
    (claim_C5_setters_unchanged_on_error 2 blinkerLife [9] (.TooHighRule 9 8)).2 rfl⟩

/-- claim C6: the next alive set is a deterministic function of only the
previous alive set, the birth rules and the survival rules. -/
theorem claim_C6_next_generation_deterministic (N : Nat) (l1 l2 : Life N)
    (ha : l1.alive_cells = l2.alive_cells) (hb : l1.birth_rules = l2.birth_rules)
    (hs : l1.survival_rules = l2.survival_rules) :
    l1.next_generation.alive_cells = l2.next_generation.alive_cells := by
  simp only [Life.next_generation]
  rw [ha, hb, hs]

/-- A state agreeing with blinkerLife on alive cells and rules only. -/
def blinkerLifeAlt : Life 2 :=
  { age := 7
    birth_rules := {3}
    survival_rules := {2, 3}
    alive_cells := {[0, 0], [1, 0], [2, 0]}
    prev_alive := {[5, 5]}
    dead_neighbours := fun _ => 3 }

/-- Witness for claim C6: two states agreeing only on alive cells and rules. -/
theorem claim_C6_witness :
    (blinkerLife.alive_cells = blinkerLifeAlt.alive_cells) ∧
      (blinkerLife.birth_rules = blinkerLifeAlt.birth_rules) ∧
      (blinkerLife.survival_rules = blinkerLifeAlt.survival_rules) ∧
      blinkerLife.next_generation.alive_cells =
        blinkerLifeAlt.next_generation.alive_cells :=
  ⟨rfl, rfl, rfl,
    claim_C6_next_generation_deterministic 2 blinkerLife blinkerLifeAlt rfl rfl rfl⟩

lemma next_generation_alive_of_empty {N : Nat} (life : Life N)
    (h : life.alive_cells = ∅) : life.next_generation.alive_cells = ∅ := by
  simp [Life.next_generation, h, deadKeys]

/-- claim C7: an empty alive set stays empty after any number of
generations, for any rule configuration. -/
theorem claim_C7_empty_stays_empty (N : Nat) (life : Life N) (k : Nat)
    (h : life.alive_cells = ∅) :
    (Life.next_generation^[k] life).alive_cells = ∅ := by
  induction k generalizing life with
  | zero => simpa using h
  | succ m ih =>
    rw [Function.iterate_succ_apply]
    exact ih _ (next_generation_alive_of_empty life h)

/-- An empty three-dimensional state with nonempty scratch fields. -/
def emptyLife3 : Life 3 :=
  { age := 5
    birth_rules := {1}
    survival_rules := {0}
    alive_cells := ∅
    prev_alive := {[1, 1, 1]}
    dead_neighbours := fun _ => 2 }

/-- Witness for claim C7 at a concrete empty three-dimensional state. -/
theorem claim_C7_witness :
    (emptyLife3.alive_cells = ∅) ∧
      (Life.next_generation^[4] emptyLife3).alive_cells = ∅ :=
  ⟨rfl, claim_C7_empty_stays_empty 3 emptyLife3 4 rfl⟩

/-- claim C8: set_cell (c, true) returns true exactly when c was dead,
set_cell (c, false) returns true exactly when c was alive, afterwards the
cell has the requested state, and an immediate repeat of the same call
returns false. -/
theorem claim_C8_set_cell (N : Nat) (life : Life N) (cell : List Int) :
    ((life.set_cell cell true).1 = true ↔ cell ∉ life.alive_cells) ∧
      ((life.set_cell cell false).1 = true ↔ cell ∈ life.alive_cells) ∧
      (∀ b : Bool, ((life.set_cell cell b).2).get_cell cell = b) ∧
      (∀ b : Bool, (((life.set_cell cell b).2).set_cell cell b).1 = false) := by
  refine ⟨?_, ?_, ?_, ?_⟩
  · simp [Life.set_cell]
  · simp [Life.set_cell]
  · intro b
    cases b <;> simp [Life.set_cell, Life.get_cell]
  · intro b
    cases b <;> simp [Life.set_cell]

/-- claim C9: conways_game_of_life never fails and returns a 2-dimensional
Life with birth rules containing exactly 3, survival rules exactly 2 and 3,
age 0, and an empty alive-cell set. -/
theorem claim_C9_conways :
    ∃ life : Life 2,
      conways_game_of_life = .ok life ∧ life.age = 0 ∧ life.birth_rules = {3} ∧
        life.survival_rules = {2, 3} ∧ life.alive_cells = ∅ := by
  refine ⟨{ age := 0
            birth_rules := [3].toFinset
            survival_rules := [2, 3].toFinset
            alive_cells := ∅
            prev_alive := ∅
            dead_neighbours := fun _ => 0 }, rfl, rfl, by decide, by decide, rfl⟩

/-- claim C10: a freshly constructed Life has an empty previous-alive set,
so changed_cells is exactly the seeded alive set. -/
theorem claim_C10_fresh_changed_cells (N : Nat) (b s : List Nat)
    (alive : Finset (List Int)) (hN : N ≠ 0) (hb : 0 ∉ b)
    (hr : ∀ r ∈ b ++ s, r ≤ Life.MAX_NEIGHBOURS N) :
    ∃ life : Life N,
      Life.new_with_alive_cells N b s alive = .ok life ∧ life.prev_alive = ∅ ∧
        life.alive_cells = alive ∧ life.changed_cells = alive := by
  refine ⟨{ age := 0
            birth_rules := b.toFinset
            survival_rules := s.toFinset
            alive_cells := alive
            prev_alive := ∅
            dead_neighbours := fun _ => 0 }, ?_, rfl, rfl, ?_⟩
  · rw [Life.new_with_alive_cells, if_neg hN, if_neg hb]
    rw [List.find?_eq_none.mpr (fun x hx => by simpa using Nat.not_lt.mpr (hr x hx))]
  · rw [Life.changed_cells]
    simp

/-- Witness for claim C10 at a concrete seeded construction. -/
theorem claim_C10_witness :
    ((2 : Nat) ≠ 0) ∧ ((0 : Nat) ∉ [3]) ∧
      (∀ r ∈ [3] ++ [2, 3], r ≤ Life.MAX_NEIGHBOURS 2) ∧
      ∃ life : Life 2,
        Life.new_with_alive_cells 2 [3] [2, 3] ({[4, 5]} : Finset (List Int)) =
            .ok life ∧
          life.prev_alive = ∅ ∧ life.alive_cells = ({[4, 5]} : Finset (List Int)) ∧
          life.changed_cells = ({[4, 5]} : Finset (List Int)) :=
  ⟨by decide, by decide, by decide,
    claim_C10_fresh_changed_cells 2 [3] [2, 3] {[4, 5]} (by decide) (by decide)
      (by decide)⟩
